import Mathlib

/-!
Shallow embedding of the sampling and derivation engine of `record.py`:
the CPU delta deriver (`get_cpu_usage`), the memory-table parser
(`get_ram_usage`), the thermal resolver (`get_temperature`), the
accelerator placeholder (`get_htp_usage`) and the body of the sampling
loop in `main`.  Python text manipulation is modelled on `List Char`,
Python floats as exact rationals, Python `round(x, 2)` as rounding to the
nearest hundredth with ties to even, and caught exceptions as `Option`
flows returning the documented fallback values.
-/

/- Batteries marks the core rational operations irreducible, which stops
`decide` from evaluating concrete rational expressions; the concrete
test vectors below need them to reduce. -/
attribute [local semireducible] Rat.mul Rat.add Rat.sub Rat.inv Rat.ofScientific

/-- Splits a character list at every character satisfying `p`; the
separators are dropped and empty chunks are kept. -/
def splitOnPred (p : Char → Bool) : List Char → List (List Char)
  | [] => [[]]
  | c :: cs =>
    let r := splitOnPred p cs
    if p c then [] :: r
    else
      match r with
      | [] => [[c]]
      | x :: xs => (c :: x) :: xs

/-- Python `str.splitlines` restricted to the newline character: split at
every `'\n'`, with no trailing empty line when the text ends in `'\n'`. -/
def pySplitlines (l : List Char) : List (List Char) :=
  let r := splitOnPred (fun c => c = '\n') l
  if r.getLast? = some [] then r.dropLast else r

/-- Python `str.split()` with no argument: split on runs of whitespace,
discarding empty chunks. -/
def pySplit (l : List Char) : List (List Char) :=
  (splitOnPred Char.isWhitespace l).filter (fun x => x ≠ [])

/-- Value of a digit string, most significant digit first. -/
def digitsVal (l : List Char) : ℕ :=
  l.foldl (fun acc c => 10 * acc + (c.toNat - Char.toNat '0')) 0

/-- Python `int(token)`: an optional minus sign followed by a nonempty
run of digits; any other shape raises `ValueError`, modelled as `none`. -/
def pyInt? : List Char → Option ℤ
  | '-' :: rest =>
    if rest ≠ [] ∧ rest.all Char.isDigit then some (-(digitsVal rest : ℤ)) else none
  | l =>
    if l ≠ [] ∧ l.all Char.isDigit then some ((digitsVal l : ℤ)) else none

/-- Python `str.isdigit`: nonempty and made of digit characters only. -/
def pyIsdigit (l : List Char) : Bool :=
  !l.isEmpty && l.all Char.isDigit

/-- Rounding to the nearest integer with ties to even, as Python's
`round` behaves on exactly representable values. -/
def rndHalfEven (q : ℚ) : ℤ :=
  if q - (Rat.floor q : ℚ) < 1 / 2 then Rat.floor q
  else if 1 / 2 < q - (Rat.floor q : ℚ) then Rat.floor q + 1
  else if Rat.floor q % 2 = 0 then Rat.floor q else Rat.floor q + 1

/-- Python `round(x, 2)` modelled on exact rationals. -/
def round2 (q : ℚ) : ℚ :=
  (rndHalfEven (100 * q) : ℚ) / 100

/-- The state-update core of `get_cpu_usage` (record.py lines 47-62) on
the already-parsed snapshot lists.  An empty previous list is falsy in
Python and skips the delta computation; an out-of-range index `[3]`
raises `IndexError`, which the enclosing handler turns into
`(None, prev_cpu_data)`. -/
def cpuDerive (prev : Option (List ℤ)) (current : List ℤ) :
    Option ℚ × Option (List ℤ) :=
  match prev with
  | none => (none, some current)
  | some p =>
    if p = [] then (none, some current)
    else
      match p.get? 3, current.get? 3 with
      | some prevIdle, some currentIdle =>
        let totalDiff : ℤ := current.sum - p.sum
        let idleDiff : ℤ := currentIdle - prevIdle
        if 0 < totalDiff then
          (some (round2 (100 * ((totalDiff : ℚ) - (idleDiff : ℚ)) / (totalDiff : ℚ))),
            some current)
        else (none, some current)
      | _, _ => (none, some p)

/-- Snapshot extraction of `get_cpu_usage` (record.py lines 42-44): the
first line starting with `"cpu "`, tokens 1 through 7 parsed as
integers; a missing line or unparsable token raises, modelled as
`none`. -/
def parseCpuSnapshot (raw : String) : Option (List ℤ) :=
  match (pySplitlines raw.data).filter (fun l => List.isPrefixOf "cpu ".data l) with
  | [] => none
  | line :: _ => ((pySplit line).drop 1).take 7 |>.mapM pyInt?

/-- `get_cpu_usage` (record.py lines 34-66) given the raw `/proc/stat`
text and the previous snapshot; an empty text or any caught exception
yields `(None, prev_cpu_data)`. -/
def get_cpu_usage (raw : String) (prev : Option (List ℤ)) :
    Option ℚ × Option (List ℤ) :=
  if raw = "" then (none, prev)
  else
    match parseCpuSnapshot raw with
    | none => (none, prev)
    | some current => cpuDerive prev current

/-- One `/proc/meminfo` line (record.py lines 77-79): exactly three
whitespace-separated tokens, the name stripped of its trailing colon,
the value parsed as an integer and converted from kB to bytes. -/
def parseMemLine (line : List Char) : Option (String × ℤ) :=
  match pySplit line with
  | [name, value, _u] =>
    (pyInt? value).map (fun v => (String.mk name.dropLast, v * 1024))
  | _ => none

/-- The whole meminfo table; a single bad line raises inside the loop
and the handler of `get_ram_usage` catches it, modelled as `none`. -/
def parseMemTable (raw : String) : Option (List (String × ℤ)) :=
  (pySplitlines raw.data).mapM parseMemLine

/-- Python dict semantics for the parsed table: the last binding of a
key wins, a missing key defaults to `0` (`dict.get(k, 0)`). -/
def memGet (d : List (String × ℤ)) (k : String) : ℤ :=
  match d.reverse.lookup k with
  | some v => v
  | none => 0

/-- `get_ram_usage` (record.py lines 69-94): returns the pair
`(used_percent, used_mb)`, both `None` on empty text, on any parse
exception, or when `MemTotal` is missing or not positive. -/
def get_ram_usage (raw : String) : Option ℚ × Option ℚ :=
  if raw = "" then (none, none)
  else
    match parseMemTable raw with
    | none => (none, none)
    | some d =>
      let total : ℤ := memGet d "MemTotal"
      let free : ℤ := memGet d "MemAvailable"
      if 0 < total then
        let used : ℤ := total - free
        (some (round2 ((used : ℚ) / (total : ℚ) * 100)),
          some (round2 ((used : ℚ) / (1024 * 1024))))
      else (none, none)

/-- Result of the thermal resolver: a numeric temperature or the
string sentinel `"N/A"`. -/
inductive TempResult
  | val (q : ℚ)
  | na
  deriving DecidableEq

/-- Unit disambiguation for one raw thermal reading (record.py lines
119-127): millidegree range, centidegree range, else whole degrees. -/
def resolveTemp (n : ℕ) : ℚ :=
  if 1000 < n ∧ n < 15000 then round2 ((n : ℚ) / 1000)
  else if 100 < n ∧ n < 1500 then round2 ((n : ℚ) / 100)
  else round2 (n : ℚ)

/-- One iteration of the zone loop of `get_temperature` (record.py
lines 108-131): a reading that is all digits, resolves strictly above
the running maximum and passes the `< 100.0` plausibility filter
replaces the maximum. -/
def tempStep (maxT : ℚ) (s : String) : ℚ :=
  if pyIsdigit s.data then
    let t := resolveTemp (digitsVal s.data)
    if maxT < t ∧ t < 100 then t else maxT
  else maxT

/-- `get_temperature` (record.py lines 96-139) over the list of
per-zone reading strings: fold the zone loop from `0.0`, return
`"N/A"` when the maximum stayed `0.0` and otherwise the maximum
multiplied by 10 (the scaling on the `return max_temp_c*10` line). -/
def get_temperature (readings : List String) : TempResult :=
  let m := readings.foldl tempStep 0
  if m = 0 then TempResult.na else TempResult.val (m * 10)

/-- The plausible resolved temperature of one reading: defined exactly
when the reading is a digit string whose resolved value passes the
100°C plausibility filter. -/
def resolvePlausible (s : String) : Option ℚ :=
  if pyIsdigit s.data then
    let t := resolveTemp (digitsVal s.data)
    if t < 100 then some t else none
  else none

/-- `get_htp_usage` (record.py lines 141-154): placeholder probe. -/
def get_htp_usage : String := "N/A"

/-- The raw texts one tick of the sampling loop fetches from the
device: the `/proc/stat` text, the `/proc/meminfo` text and the
per-zone thermal readings. -/
structure TickInput where
  cpuRaw : String
  memRaw : String
  tempReadings : List String

/-- One emitted row of the sampling loop (record.py lines 199-206),
timestamp omitted: the CPU percent and the other metrics as fetched
that tick. -/
structure Row where
  cpuPercent : ℚ
  ramUsedMb : Option ℚ
  ramPercent : Option ℚ
  maxTemp : TempResult
  htpStatus : String
  deriving DecidableEq

/-- The body of the steady-state sampling loop (record.py lines
188-218): collect all metrics, then emit a row only when
`cpu_percent is not None`, updating the previous CPU snapshot only in
that case. -/
def tickStep (prev : Option (List ℤ)) (inp : TickInput) :
    Option Row × Option (List ℤ) :=
  let cpu := get_cpu_usage inp.cpuRaw prev
  let ram := get_ram_usage inp.memRaw
  let temp := get_temperature inp.tempReadings
  match cpu.1 with
  | some c => (some ⟨c, ram.2, ram.1, temp, get_htp_usage⟩, cpu.2)
  | none => (none, prev)

/-- The rows the sampling loop appends to the sink over a list of
ticks, in arrival order, threading the CPU snapshot state. -/
def runLoop (prev : Option (List ℤ)) : List TickInput → List Row
  | [] => []
  | t :: ts =>
    match tickStep prev t with
    | (some r, p) => r :: runLoop p ts
    | (none, p) => runLoop p ts

/-! ### Helper lemmas -/

theorem ratFloor_eq_floor (q : ℚ) : Rat.floor q = ⌊q⌋ := by
  rw [Rat.floor_def', Rat.floor_def]

theorem rndHalfEven_nonneg (q : ℚ) (h : 0 ≤ q) : 0 ≤ rndHalfEven q := by
  have hf : 0 ≤ ⌊q⌋ := Int.floor_nonneg.mpr h
  unfold rndHalfEven
  rw [ratFloor_eq_floor]
  split_ifs <;> omega

theorem rndHalfEven_le_of_le (q : ℚ) (n : ℤ) (h : q ≤ (n : ℚ)) :
    rndHalfEven q ≤ n := by
  have hf : ⌊q⌋ ≤ n := by
    have h2 := Int.floor_le_floor h
    rwa [Int.floor_intCast] at h2
  have key : ¬(q - (⌊q⌋ : ℚ) < 1 / 2) → ⌊q⌋ + 1 ≤ n := by
    intro h1
    push_neg at h1
    have hfl : (⌊q⌋ : ℚ) ≤ q := Int.floor_le q
    have hlt : (⌊q⌋ : ℚ) < (n : ℚ) := by linarith
    have hlt2 : ⌊q⌋ < n := by exact_mod_cast hlt
    omega
  unfold rndHalfEven
  rw [ratFloor_eq_floor]
  split_ifs with h1 h2 h3
  · exact hf
  · exact key h1
  · exact hf
  · exact key h1

theorem round2_nonneg (q : ℚ) (h : 0 ≤ q) : 0 ≤ round2 q := by
  unfold round2
  have h1 : 0 ≤ rndHalfEven (100 * q) := rndHalfEven_nonneg _ (by linarith)
  have h2 : (0 : ℚ) ≤ (rndHalfEven (100 * q) : ℚ) := by exact_mod_cast h1
  positivity

theorem round2_le_100 (q : ℚ) (h : q ≤ 100) : round2 q ≤ 100 := by
  unfold round2
  have h1 : rndHalfEven (100 * q) ≤ (10000 : ℤ) := by
    apply rndHalfEven_le_of_le
    push_cast
    linarith
  have h2 : (rndHalfEven (100 * q) : ℚ) ≤ (10000 : ℚ) := by exact_mod_cast h1
  linarith

theorem sum_le_of_forall2 (l1 l2 : List ℤ) (h : List.Forall₂ (· ≤ ·) l1 l2) :
    l1.sum ≤ l2.sum := by
  induction h with
  | nil => simp
  | cons hxy _ ih =>
    simp only [List.sum_cons]
    exact add_le_add hxy ih

theorem forall2_get_le (l1 l2 : List ℤ) (h : List.Forall₂ (· ≤ ·) l1 l2) :
    ∀ (i : ℕ) (a b : ℤ), l1.get? i = some a → l2.get? i = some b →
      a ≤ b ∧ b - a ≤ l2.sum - l1.sum := by
  induction h with
  | nil => intro i a b ha _; simp at ha
  | cons hxy htail ih =>
    intro i a b ha hb
    cases i with
    | zero =>
      rw [List.get?_cons_zero] at ha hb
      cases ha
      cases hb
      refine ⟨hxy, ?_⟩
      have hs := sum_le_of_forall2 _ _ htail
      simp only [List.sum_cons]
      linarith
    | succ n =>
      rw [List.get?_cons_succ] at ha hb
      obtain ⟨h1, h2⟩ := ih n a b ha hb
      refine ⟨h1, ?_⟩
      simp only [List.sum_cons]
      linarith

theorem mapM_eq_none_of_mem {α β : Type} (f : α → Option β) :
    ∀ (l : List α) (x : α), x ∈ l → f x = none → l.mapM f = none := by
  intro l
  induction l with
  | nil => intro x hx; simp at hx
  | cons y ys ih =>
    intro x hx hfx
    rw [List.mapM_cons]
    rcases List.mem_cons.mp hx with rfl | hmem
    · rw [hfx]
      rfl
    · cases hfy : f y with
      | none => rfl
      | some b =>
        rw [ih x hmem hfx]
        rfl

theorem cpuDerive_eq_of_get (p current : List ℤ) (hp : p ≠ []) (a b : ℤ)
    (hp3 : p.get? 3 = some a) (hc3 : current.get? 3 = some b) :
    cpuDerive (some p) current =
      if 0 < current.sum - p.sum then
        (some (round2 (100 * (((current.sum - p.sum : ℤ) : ℚ) - ((b - a : ℤ) : ℚ)) /
          ((current.sum - p.sum : ℤ) : ℚ))), some current)
      else (none, some current) := by
  unfold cpuDerive
  dsimp only
  rw [if_neg hp, hp3, hc3]

theorem cpuDerive_some_inv (prev current : List ℤ) (q : ℚ)
    (hq : (cpuDerive (some prev) current).1 = some q) :
    ∃ a b, prev.get? 3 = some a ∧ current.get? 3 = some b ∧
      0 < current.sum - prev.sum ∧
      q = round2 (100 * (((current.sum - prev.sum : ℤ) : ℚ) - ((b - a : ℤ) : ℚ)) /
        ((current.sum - prev.sum : ℤ) : ℚ)) := by
  by_cases hpne : prev = []
  · rw [hpne] at hq
    simp [cpuDerive] at hq
  · unfold cpuDerive at hq
    dsimp only at hq
    rw [if_neg hpne] at hq
    split at hq
    · rename_i a b hp3 hc3
      split at hq
      · rename_i htd
        simp only [Prod.fst, Option.some.injEq] at hq
        exact ⟨a, b, hp3, hc3, htd, hq.symm⟩
      · simp at hq
    · simp at hq

/-- Claim C4: for every pair of successive snapshots (7-tuples of
non-negative integers) in which each component of the current snapshot is
at least the corresponding component of the previous one and the sum of
differences is strictly positive, the percent returned by the CPU deriver
lies in [0, 100]. -/
theorem c4_cpu_percent_in_range (prev current : List ℤ)
    (hp : prev.length = 7) (hc : current.length = 7)
    (hpnn : ∀ x ∈ prev, 0 ≤ x) (hcnn : ∀ x ∈ current, 0 ≤ x)
    (hmono : List.Forall₂ (· ≤ ·) prev current)
    (htd : 0 < current.sum - prev.sum) :
    ∃ q, (cpuDerive (some prev) current).1 = some q ∧ 0 ≤ q ∧ q ≤ 100 := by
  have hpne : prev ≠ [] := by
    intro h
    rw [h] at hp
    simp at hp
  obtain ⟨a, hp3⟩ : ∃ a, prev.get? 3 = some a := by
    cases h : prev.get? 3 with
    | none => rw [List.get?_eq_none] at h; omega
    | some a => exact ⟨a, rfl⟩
  obtain ⟨b, hc3⟩ : ∃ b, current.get? 3 = some b := by
    cases h : current.get? 3 with
    | none => rw [List.get?_eq_none] at h; omega
    | some b => exact ⟨b, rfl⟩
  have hget := forall2_get_le prev current hmono 3 a b hp3 hc3
  rw [cpuDerive_eq_of_get prev current hpne a b hp3 hc3, if_pos htd]
  refine ⟨_, rfl, ?_, ?_⟩
  · apply round2_nonneg
    have h1 : ((b - a : ℤ) : ℚ) ≤ ((current.sum - prev.sum : ℤ) : ℚ) := by
      exact_mod_cast hget.2
    have h2 : (0 : ℚ) < ((current.sum - prev.sum : ℤ) : ℚ) := by exact_mod_cast htd
    apply div_nonneg _ (le_of_lt h2)
    linarith
  · apply round2_le_100
    have h0 : (0 : ℚ) ≤ ((b - a : ℤ) : ℚ) := by
      exact_mod_cast sub_nonneg.mpr hget.1
    have h2 : (0 : ℚ) < ((current.sum - prev.sum : ℤ) : ℚ) := by exact_mod_cast htd
    rw [div_le_iff₀ h2]
    linarith

/-- Witness for C4 at the snapshot pair `[1,1,1,1,1,1,1]`,
`[2,2,2,2,2,2,2]`. -/
theorem c4_cpu_percent_in_range_witness :
    ∃ q, (cpuDerive (some [1, 1, 1, 1, 1, 1, 1]) [2, 2, 2, 2, 2, 2, 2]).1 = some q ∧
      0 ≤ q ∧ q ≤ 100 :=
  c4_cpu_percent_in_range [1, 1, 1, 1, 1, 1, 1] [2, 2, 2, 2, 2, 2, 2]
    (by decide) (by decide) (by decide) (by decide) (by decide) (by decide)

/-- Claim C5 counterexample: with a non-monotone snapshot pair the CPU
deriver returns the numeric percent -100, which is negative, so the claim
as stated over all snapshot pairs is false. -/
theorem c5_counterexample :
    (cpuDerive (some [10, 0, 0, 0, 0, 0, 0]) [0, 0, 0, 20, 0, 0, 0]).1 =
      some (-100) ∧ (-100 : ℚ) < 0 := by
  constructor
  · decide
  · decide

/-- Claim C5 (amended): whenever each component of the current snapshot is
at least the corresponding component of the previous one, any numeric
percent the CPU deriver returns is non-negative. -/
theorem c5_nonneg_of_monotone (prev current : List ℤ)
    (hmono : List.Forall₂ (· ≤ ·) prev current) :
    ∀ q, (cpuDerive (some prev) current).1 = some q → 0 ≤ q := by
  intro q hq
  obtain ⟨a, b, hp3, hc3, htd, hqv⟩ := cpuDerive_some_inv prev current q hq
  have hget := forall2_get_le prev current hmono 3 a b hp3 hc3
  subst hqv
  apply round2_nonneg
  have h1 : ((b - a : ℤ) : ℚ) ≤ ((current.sum - prev.sum : ℤ) : ℚ) := by
    exact_mod_cast hget.2
  have h2 : (0 : ℚ) < ((current.sum - prev.sum : ℤ) : ℚ) := by exact_mod_cast htd
  apply div_nonneg _ (le_of_lt h2)
  linarith

/-- Witness for the amended C5 at the monotone pair `[0,...,0]`,
`[1,0,0,1,0,0,0]`. -/
theorem c5_nonneg_of_monotone_witness :
    ∃ q, (cpuDerive (some [0, 0, 0, 0, 0, 0, 0]) [1, 0, 0, 1, 0, 0, 0]).1 = some q ∧
      0 ≤ q :=
  ⟨50, by decide, c5_nonneg_of_monotone [0, 0, 0, 0, 0, 0, 0] [1, 0, 0, 1, 0, 0, 0]
    (by decide) 50 (by decide)⟩

/-- Claim C6: for every pair of 7-component snapshots whose total
difference is not positive, the CPU deriver returns `(None, current)` and
never reaches the division. -/
theorem c6_no_division_on_nonpositive_delta (prev current : List ℤ)
    (hp : prev.length = 7) (hc : current.length = 7)
    (htd : current.sum - prev.sum ≤ 0) :
    cpuDerive (some prev) current = (none, some current) := by
  have hpne : prev ≠ [] := by
    intro h
    rw [h] at hp
    simp at hp
  obtain ⟨a, hp3⟩ : ∃ a, prev.get? 3 = some a := by
    cases h : prev.get? 3 with
    | none => rw [List.get?_eq_none] at h; omega
    | some a => exact ⟨a, rfl⟩
  obtain ⟨b, hc3⟩ : ∃ b, current.get? 3 = some b := by
    cases h : current.get? 3 with
    | none => rw [List.get?_eq_none] at h; omega
    | some b => exact ⟨b, rfl⟩
  rw [cpuDerive_eq_of_get prev current hpne a b hp3 hc3, if_neg (by omega)]

/-- Witness for C6 at the identical-total pair `[1,0,...,0]`,
`[0,0,...,0]`. -/
theorem c6_no_division_on_nonpositive_delta_witness :
    cpuDerive (some [1, 0, 0, 0, 0, 0, 0]) [0, 0, 0, 0, 0, 0, 0] =
      (none, some [0, 0, 0, 0, 0, 0, 0]) :=
  c6_no_division_on_nonpositive_delta [1, 0, 0, 0, 0, 0, 0] [0, 0, 0, 0, 0, 0, 0]
    (by decide) (by decide) (by decide)

theorem parseCpuSnapshot_empty : parseCpuSnapshot "" = none := by decide

/-- Claim C7: for every raw counter text that parses to a snapshot,
calling the CPU deriver with no prior snapshot returns `None` as the
percent together with the snapshot parsed from the input. -/
theorem c7_first_call_returns_none (raw : String) (snap : List ℤ)
    (h : parseCpuSnapshot raw = some snap) :
    get_cpu_usage raw none = (none, some snap) := by
  have hne : raw ≠ "" := by
    intro he
    subst he
    rw [parseCpuSnapshot_empty] at h
    exact Option.noConfusion h
  unfold get_cpu_usage
  rw [if_neg hne, h]
  rfl

/-- Witness for C7 at a well-formed `/proc/stat` text with eight counter
fields, of which the first seven are kept. -/
theorem c7_first_call_returns_none_witness :
    get_cpu_usage "cpu 10 20 30 40 50 60 70 80" none =
      (none, some [10, 20, 30, 40, 50, 60, 70]) :=
  c7_first_call_returns_none "cpu 10 20 30 40 50 60 70 80"
    [10, 20, 30, 40, 50, 60, 70] (by decide)

/-- Claim C8: for every memory table text in which the `MemTotal` entry
is absent or zero, the memory parser returns `(None, None)`; texts that
fail to parse at all take the exception path to the same result. -/
theorem c8_no_memtotal_returns_none (raw : String)
    (h : ∀ d, parseMemTable raw = some d → memGet d "MemTotal" = 0) :
    get_ram_usage raw = (none, none) := by
  unfold get_ram_usage
  by_cases he : raw = ""
  · rw [if_pos he]
  · rw [if_neg he]
    cases hp : parseMemTable raw with
    | none => rfl
    | some d =>
      have h0 := h d hp
      dsimp only
      rw [h0]
      simp

/-- Witness for C8 at a table whose only entry is `MemFree`. -/
theorem c8_no_memtotal_returns_none_witness :
    get_ram_usage "MemFree: 100 kB" = (none, none) :=
  c8_no_memtotal_returns_none "MemFree: 100 kB" (by
    intro d hd
    have h0 : parseMemTable "MemFree: 100 kB" = some [("MemFree", (102400 : ℤ))] := by
      decide
    rw [h0] at hd
    injection hd with h1
    subst h1
    decide)

/-- Claim C9: a single non-empty line that does not split into exactly
three tokens with an integer second token makes the memory parser return
`(None, None)` for the whole table, valid entries notwithstanding. -/
theorem c9_single_bad_line_discards_table (raw : String) (line : List Char)
    (hmem : line ∈ pySplitlines raw.data) (hne : line ≠ [])
    (hbad : parseMemLine line = none) :
    get_ram_usage raw = (none, none) := by
  have hp : parseMemTable raw = none :=
    mapM_eq_none_of_mem parseMemLine (pySplitlines raw.data) line hmem hbad
  unfold get_ram_usage
  by_cases he : raw = ""
  · rw [if_pos he]
  · rw [if_neg he, hp]

/-- Witness for C9 at a table with valid `MemTotal` and `MemAvailable`
lines followed by a one-token garbage line. -/
theorem c9_single_bad_line_discards_table_witness :
    get_ram_usage "MemTotal: 1000000 kB\nMemAvailable: 400000 kB\nGarbage" =
      (none, none) :=
  c9_single_bad_line_discards_table
    "MemTotal: 1000000 kB\nMemAvailable: 400000 kB\nGarbage"
    "Garbage".data (by decide) (by decide) (by decide)

theorem tempStep_zero (s : String)
    (h : ∀ t, resolvePlausible s = some t → t ≤ 0) : tempStep 0 s = 0 := by
  unfold tempStep
  by_cases hd : pyIsdigit s.data
  · rw [if_pos hd]
    dsimp only
    by_cases hc : (0 : ℚ) < resolveTemp (digitsVal s.data) ∧
        resolveTemp (digitsVal s.data) < 100
    · exfalso
      have hp : resolvePlausible s = some (resolveTemp (digitsVal s.data)) := by
        unfold resolvePlausible
        rw [if_pos hd]
        dsimp only
        rw [if_pos hc.2]
      have hle := h _ hp
      linarith [hc.1]
    · rw [if_neg hc]
  · rw [if_neg hd]

theorem foldl_tempStep_zero (readings : List String)
    (h : ∀ s ∈ readings, ∀ t, resolvePlausible s = some t → t ≤ 0) :
    readings.foldl tempStep 0 = 0 := by
  induction readings with
  | nil => rfl
  | cons s ss ih =>
    rw [List.foldl_cons, tempStep_zero s (h s (List.mem_cons_self s ss))]
    exact ih (fun x hx t ht => h x (List.mem_cons_of_mem s hx) t ht)

/-- Claim C10: whenever every zone's resolved plausible temperature is at
most zero — all-zero raw readings, no zones, or non-numeric readings —
the thermal resolver returns the unavailable sentinel, so a genuine 0°C
reading is indistinguishable from having no data. -/
theorem c10_na_when_no_positive_plausible (readings : List String)
    (h : ∀ s ∈ readings, ∀ t, resolvePlausible s = some t → t ≤ 0) :
    get_temperature readings = TempResult.na := by
  unfold get_temperature
  dsimp only
  rw [foldl_tempStep_zero readings h]
  rfl

/-- Witness for C10 at the single genuine reading `0`, whose resolved
plausible temperature is exactly 0°C. -/
theorem c10_na_when_no_positive_plausible_witness :
    get_temperature ["0"] = TempResult.na :=
  c10_na_when_no_positive_plausible ["0"] (by
    intro s hs t ht
    rw [List.mem_singleton] at hs
    subst hs
    have h0 : resolvePlausible "0" = some 0 := by decide
    rw [h0] at ht
    injection ht with h1
    subst h1
    exact le_refl 0)

/-- Claim C1 (code bug): evaluating the thermal resolver at the raw zone
readings 5000, 45 and 9000000 returns 450, ten times the 45.0 the claim,
the spec and the function's own docstring describe, because of the
`max_temp_c*10` scaling on the resolver's return line. -/
theorem c1_thermal_resolver_eval :
    get_temperature ["5000", "45", "9000000"] = TempResult.val 450 ∧
      TempResult.val (450 : ℚ) ≠ TempResult.val 45 := by
  constructor
  · decide
  · decide

/-- Claim C3 counterexample: on the table with `MemTotal` 1000000 kB and
`MemAvailable` 400000 kB, the memory parser does not return
`used_mb = 600.0`. -/
theorem c3_counterexample :
    get_ram_usage "MemTotal: 1000000 kB\nMemAvailable: 400000 kB" ≠
      (some 60, some 600) := by
  decide

/-- Claim C3 (amended): on the table with `MemTotal` 1000000 kB and
`MemAvailable` 400000 kB, the memory parser returns
`used_percent = 60.0` and `used_mb = 585.94` (614400000 bytes divided by
1048576, rounded to 2 decimals). -/
theorem c3_memory_parser_values :
    get_ram_usage "MemTotal: 1000000 kB\nMemAvailable: 400000 kB" =
      (some 60, some (58594 / 100)) := by
  decide

/-- Claim C2 counterexample: a tick whose CPU text is empty emits no row
at all, although the memory table and a thermal reading are present, so
the loop does not emit exactly one row for that tick. -/
theorem c2_counterexample :
    (runLoop (some [1, 2, 3, 4, 5, 6, 7])
        [⟨"", "MemTotal: 1000000 kB\nMemAvailable: 400000 kB", ["45"]⟩]).length =
      0 ∧ (0 : ℕ) ≠ 1 := by
  constructor
  · decide
  · decide

/-- Claim C2 (amended): each tick emits a row precisely when the CPU
percent derivation succeeds that tick, rather than one row per tick
unconditionally; an emitted row carries the independently computed RAM
and temperature metrics, absent or not, and the sink receives the rows
in arrival order — each tick's emission (one row or none) precedes
everything the later ticks emit. -/
theorem c2_row_iff_cpu_present :
    (∀ (prev : Option (List ℤ)) (inp : TickInput),
      (tickStep prev inp).1 = ((get_cpu_usage inp.cpuRaw prev).1).map
        (fun c => ⟨c, (get_ram_usage inp.memRaw).2, (get_ram_usage inp.memRaw).1,
          get_temperature inp.tempReadings, get_htp_usage⟩)) ∧
    ∀ (prev : Option (List ℤ)) (t : TickInput) (ts : List TickInput),
      runLoop prev (t :: ts) =
        (tickStep prev t).1.toList ++ runLoop (tickStep prev t).2 ts := by
  constructor
  · intro prev inp
    unfold tickStep
    dsimp only
    cases (get_cpu_usage inp.cpuRaw prev).1 with
    | none => rfl
    | some c => rfl
  · intro prev t ts
    cases h : tickStep prev t with
    | mk row p =>
      simp only [runLoop]
      rw [h]
      cases row with
      | none => rfl
      | some r => rfl
